import Mathlib

/-!
Verification of the `ara-lang/source` source-acquisition library.

The Rust code is shallowly embedded: strings are Lean `String`s, the
filesystem is an explicit finite map (association lists for files and
directories), fallible operations return `Except Error`, Rust panics are
modelled by an outer `Option` layer (`none` = panic / divergence), and
`usize` arithmetic wraps modulo `2 ^ 64` (release-build semantics).
-/

namespace AraSource

/-! ## Rust string primitives (`str::starts_with`, `str::ends_with`,
`str::strip_prefix`), modelled on the character lists underlying `String`.
For valid UTF-8, byte-level prefixes/suffixes coincide with character-level
ones. -/

def rustStartsWith (s pre : String) : Bool :=
  pre.data.isPrefixOf s.data

def rustEndsWith (s suf : String) : Bool :=
  suf.data.isSuffixOf s.data

def stripPrefixRust (s pre : String) : Option String :=
  if pre.data.isPrefixOf s.data then some ⟨s.data.drop pre.data.length⟩ else none

/-- `Path::file_name`: the component after the last `/`.  (Rust returns
`None` for paths ending in `..` or `/`; such paths never name regular files,
which is the only place this function is consulted.) -/
def fileNameOf (name : String) : String :=
  ⟨(name.data.reverse.takeWhile (fun c => c ≠ '/')).reverse⟩

/-- `Path::extension`: the portion of the file name after the last `.`;
`none` when there is no `.`, or when the only `.` is a leading one
(hidden files like `.ara` have no extension). -/
def extensionOf (name : String) : Option String :=
  let f := (fileNameOf name).data
  let extChars := (f.reverse.takeWhile (fun c => c ≠ '.')).reverse
  if extChars.length = f.length then none
  else if extChars.length + 1 = f.length ∧ f.head? = some '.' then none
  else some ⟨extChars⟩

/-- `PathBuf::join`: an absolute right operand replaces the left; otherwise
the operands are joined with a `/` separator when one is needed. -/
def pathJoin (r o : String) : String :=
  if rustStartsWith o "/" then o
  else if r = "" then o
  else if rustEndsWith r "/" then r ++ o
  else r ++ "/" ++ o

/-! ## The filesystem model: one fixed filesystem state.

`files` maps a file path to its content; `dirs` maps a directory path to the
full paths of its direct children. -/

structure FS where
  files : List (String × String)
  dirs : List (String × List String)
deriving DecidableEq, Repr

def FS.readFile (fs : FS) (p : String) : Option String :=
  (fs.files.find? (fun q => q.1 == p)).map (·.2)

def FS.isFile (fs : FS) (p : String) : Bool :=
  (fs.files.find? (fun q => q.1 == p)).isSome

def FS.readDir (fs : FS) (p : String) : Option (List String) :=
  (fs.dirs.find? (fun q => q.1 == p)).map (·.2)

def FS.isDir (fs : FS) (p : String) : Bool :=
  (fs.readDir p).isSome

/-- Well-formedness of a filesystem state: each entry of a directory is a
strictly longer path than the directory itself (on a real filesystem an
entry's path is `dir ++ "/" ++ childName`). -/
def FS.WF (fs : FS) : Prop :=
  ∀ p ∈ fs.dirs, ∀ e ∈ p.2, p.1.length < e.length

instance (fs : FS) : Decidable fs.WF := by
  unfold FS.WF; infer_instance

/-! ## `source.rs`: `SourceKind` and `Source`. -/

def DEFAULT_NAME : String := "<unknown>"

inductive SourceKind where
  | Definition
  | Script
deriving DecidableEq, Repr

structure Source where
  kind : SourceKind
  root : Option String
  origin : Option String
  content : Option String
deriving DecidableEq, Repr

/-- `Source::new(kind, root, origin)`: a located source, no content yet. -/
def Source.new (kind : SourceKind) (root : String) (origin : String) : Source :=
  { kind := kind, root := some root, origin := some origin, content := none }

/-- `Source::inline(kind, content)`: an anonymous source carrying content. -/
def Source.inline (kind : SourceKind) (content : String) : Source :=
  { kind := kind, root := none, origin := none, content := some content }

/-- `Source::name`: the origin when present, else the sentinel. -/
def Source.name (s : Source) : String :=
  match s.origin with
  | some origin => origin
  | none => DEFAULT_NAME

/-- `Source::source_path`: `self.root.as_ref().map(|root|
root.join(self.origin.as_ref().unwrap()))`.  Outer `none` = panic (the
`unwrap` of an absent origin under a present root); `some none` = the
function returned Rust's `None`; `some (some p)` = it returned `Some p`. -/
def Source.source_path (s : Source) : Option (Option String) :=
  match s.root with
  | none => some none
  | some r =>
    match s.origin with
    | none => none
    | some o => some (some (pathJoin r o))

/-- `Source::dispose_content`: unconditionally clears the cached content. -/
def Source.dispose_content (s : Source) : Source :=
  { s with content := none }

/-! ## `hash.rs`: the `FxHasher` content hasher (`rustc_hash::FxHasher`).

The hasher folds machine words into a 64-bit state with
`hash = (hash.rotate_left(5) ^ word).wrapping_mul(SEED)`, consuming the
input bytes in little-endian chunks of 8, then 4, then 2, then 1. -/

def FX_SEED : Nat := 0x517cc1b727220a95

/-- `u64::rotate_left(x, 5)` on a value `x < 2 ^ 64`. -/
def rotl5u64 (x : Nat) : Nat :=
  ((x <<< 5) % 2 ^ 64) ||| (x >>> 59)

/-- One `FxHasher::add_to_hash` step. -/
def addToHash (h w : Nat) : Nat :=
  ((rotl5u64 h) ^^^ w) * FX_SEED % 2 ^ 64

/-- Little-endian value of a byte list (first byte least significant). -/
def leVal (bs : List Nat) : Nat :=
  bs.foldr (fun b acc => b + 256 * acc) 0

/-- Remainder of `FxHasher::write` once fewer than 2 bytes remain. -/
def fxTail1 (h : Nat) : List Nat → Nat
  | b0 :: _ => addToHash h (leVal [b0])
  | [] => h

/-- Remainder of `FxHasher::write` once fewer than 4 bytes remain. -/
def fxTail2 (h : Nat) : List Nat → Nat
  | b0 :: b1 :: rest => fxTail1 (addToHash h (leVal [b0, b1])) rest
  | rest => fxTail1 h rest

/-- Remainder of `FxHasher::write` once fewer than 8 bytes remain. -/
def fxTail4 (h : Nat) : List Nat → Nat
  | b0 :: b1 :: b2 :: b3 :: rest => fxTail2 (addToHash h (leVal [b0, b1, b2, b3])) rest
  | rest => fxTail2 h rest

/-- `FxHasher::write`: fold full 8-byte words, then the 4/2/1-byte tail. -/
def fxWrite (h : Nat) : List Nat → Nat
  | b0 :: b1 :: b2 :: b3 :: b4 :: b5 :: b6 :: b7 :: rest =>
    fxWrite (addToHash h (leVal [b0, b1, b2, b3, b4, b5, b6, b7])) rest
  | rest => fxTail4 h rest

/-- UTF-8 encoding of one character, as byte values. -/
def utf8Char (c : Char) : List Nat :=
  let n := c.toNat
  if n < 0x80 then [n]
  else if n < 0x800 then [0xC0 ||| (n >>> 6), 0x80 ||| (n &&& 0x3F)]
  else if n < 0x10000 then
    [0xE0 ||| (n >>> 12), 0x80 ||| ((n >>> 6) &&& 0x3F), 0x80 ||| (n &&& 0x3F)]
  else
    [0xF0 ||| (n >>> 18), 0x80 ||| ((n >>> 12) &&& 0x3F),
      0x80 ||| ((n >>> 6) &&& 0x3F), 0x80 ||| (n &&& 0x3F)]

/-- The bytes of a string (`str::as_bytes` on the UTF-8 representation). -/
def utf8Bytes (s : String) : List Nat :=
  (s.data.map utf8Char).flatten

/-- `FxHasher::hash(content)`: hash the content's bytes starting from state
`0` (`FxHasher::default`), then `finish` returns the state. -/
def fxhash (content : String) : Nat :=
  fxWrite 0 (utf8Bytes content)

/-! ## `error.rs`. -/

inductive Error where
  | SourceNotFound (key : String)
  | InvalidSource (msg : String)
  | IoError
deriving DecidableEq, Repr

instance {ε α : Type} [DecidableEq ε] [DecidableEq α] : DecidableEq (Except ε α) :=
  fun a b =>
    match a, b with
    | .ok x, .ok y =>
      if h : x = y then isTrue (by rw [h]) else isFalse (fun hh => h (by cases hh; rfl))
    | .error x, .error y =>
      if h : x = y then isTrue (by rw [h]) else isFalse (fun hh => h (by cases hh; rfl))
    | .ok _, .error _ => isFalse (fun hh => Except.noConfusion hh)
    | .error _, .ok _ => isFalse (fun hh => Except.noConfusion hh)

/-! ## Stateful operations of `Source`: `content`, `hash`.

`Source::content` mutates `self` (caching); the model returns the result,
the updated source, and the number of filesystem reads performed (the
"counting stub filesystem" of the specification).  The outer `Option` is
`none` exactly when the Rust code panics (the `expect` on `source_path`). -/

def Source.contentC (fs : FS) (s : Source) : Option (Except Error String × Source × Nat) :=
  match s.content with
  | some c => some (.ok c, s, 0)
  | none =>
    match s.root, s.origin with
    | some r, some o =>
      match fs.readFile (pathJoin r o) with
      | none => some (.error .IoError, s, 1)
      | some text => some (.ok text, { s with content := some text }, 1)
    | _, _ => none

/-- `Source::hash`: obtain the content (through the same lazy-loading path
as `content`), then apply the `FxHasher` to it. -/
def Source.hashC (fs : FS) (s : Source) : Option (Except Error (Nat × Source)) :=
  match Source.contentC fs s with
  | none => none
  | some (.error e, _, _) => some (.error e)
  | some (.ok text, s', _) => some (.ok (fxhash text, s'))

/-! ## `lib.rs`: `SourceMap`. -/

structure SourceMap where
  sources : List Source
deriving DecidableEq, Repr

def SourceMap.new (sources : List Source) : SourceMap :=
  { sources := sources }

def SourceMap.add (m : SourceMap) (s : Source) : SourceMap :=
  { sources := m.sources ++ [s] }

/-- `usize` subtraction of 1 with release-build wrapping semantics
(`0 - 1` wraps to `2 ^ 64 - 1`; a debug build would panic instead). -/
def usizeWrapSub1 (i : Nat) : Nat :=
  (i + (2 ^ 64 - 1)) % 2 ^ 64

/-- `SourceMap::get`: `self.sources.get(index - 1)`, 1-based. -/
def SourceMap.get (m : SourceMap) (index : Nat) : Except Error Source :=
  match m.sources.get? (usizeWrapSub1 index) with
  | some s => .ok s
  | none => .error (.SourceNotFound (toString index))

/-- `SourceMap::named`: first source whose `origin` equals the name. -/
def SourceMap.named (m : SourceMap) (name : String) : Except Error Source :=
  match m.sources.find? (fun s => s.origin == some name) with
  | some s => .ok s
  | none => .error (.SourceNotFound name)

/-- `SourceMap::merge`: appends the other map's sources and empties it;
returns (updated self, emptied other). -/
def SourceMap.merge (m other : SourceMap) : SourceMap × SourceMap :=
  ({ sources := m.sources ++ other.sources }, { sources := [] })

/-! ## `loader.rs`. -/

def ARA_SCRIPT_EXTENSION : String := "ara"

def ARA_DEFINTION_EXTENSION : String := "d.ara"

structure FileSourceLoader where
  root : String
deriving DecidableEq, Repr

/-- `FileSourceLoader::supports`: the name starts with the loader's root,
is an existing regular file, and its path extension is `ara`. -/
def FileSourceLoader.supports (l : FileSourceLoader) (fs : FS) (name : String) : Bool :=
  if !(rustStartsWith name l.root) then false
  else if !(fs.isFile name) then false
  else
    match extensionOf name with
    | some ext => ext == ARA_SCRIPT_EXTENSION
    | none => false

/-- `FileSourceLoader::load`.  Note the arguments of the `Source::new` call,
exactly as in the source: the stripped path is passed in root position and
the file content in origin position
(`Source::new(kind, name.strip_prefix(&self.root).unwrap(), content)`).
The `getD ""` models the `unwrap` on a branch `supports` makes unreachable
(it guarantees the root is a prefix of the name). -/
def FileSourceLoader.load (l : FileSourceLoader) (fs : FS) (name : String) :
    Except Error SourceMap :=
  if !(l.supports fs name) then
    .error (.InvalidSource ("source `" ++ name ++ "` is not supported."))
  else
    let kind := if rustEndsWith name ARA_DEFINTION_EXTENSION then
      SourceKind.Definition else SourceKind.Script
    match fs.readFile name with
    | none => .error .IoError
    | some content =>
      .ok (SourceMap.new [Source.new kind ((stripPrefixRust name l.root).getD "") content])

/-! `DirectorySourceLoader`, as built by `DirectorySourceLoader::new(root)`:
its registered loaders are exactly `[FileSourceLoader::new(root)]`.  Its
`supports`/`load` recurse through subdirectories; the recursion is fuelled,
and `dirFuel` (number of directories + 1) is proved sufficient for every
well-formed filesystem below. -/

/-- `DirectorySourceLoader::supports` with explicit fuel: the name starts
with the root and is an existing, enumerable directory all of whose
subdirectory entries are recursively supported. -/
def dirSupportsF (root : String) (fs : FS) : Nat → String → Bool
  | 0, _ => false
  | fuel + 1, name =>
    if !(rustStartsWith name root) then false
    else
      match fs.readDir name with
      | none => false
      | some entries =>
        entries.all fun e => if fs.isDir e then dirSupportsF root fs fuel e else true

/-- Fuel sufficient for `dirSupportsF`/`dirLoadF` on well-formed states. -/
def dirFuel (fs : FS) : Nat := fs.dirs.length + 1

/-- `DirectorySourceLoader::supports`. -/
def dirSupports (root : String) (fs : FS) (name : String) : Bool :=
  dirSupportsF root fs (dirFuel fs) name

/-- One iteration of the entry loop of `DirectorySourceLoader::load`,
mirroring the source: a subdirectory is recursively loaded (`rec`) and
merged (errors propagate), a file entry is loaded by the first registered
loader that supports it (`FileSourceLoader` with the same root), and an
entry matched by no loader is silently skipped. -/
def dirLoadStep (root : String) (fs : FS) (rec : String → Option (Except Error SourceMap))
    (acc : Option (Except Error SourceMap)) (e : String) : Option (Except Error SourceMap) :=
  match acc with
  | none => none
  | some (.error err) => some (.error err)
  | some (.ok map) =>
    if fs.isDir e then
      match rec e with
      | none => none
      | some (.error err) => some (.error err)
      | some (.ok m) => some (.ok (map.merge m).1)
    else
      if (FileSourceLoader.mk root).supports fs e then
        match (FileSourceLoader.mk root).load fs e with
        | .error err => some (.error err)
        | .ok m => some (.ok (map.merge m).1)
      else acc

/-- `DirectorySourceLoader::load` with explicit fuel.  `none` models
running out of fuel (divergence; never reached from `dirLoad` on a
well-formed filesystem) or the `unwrap` of `read_dir` on the branch
`supports` makes unreachable. -/
def dirLoadF (root : String) (fs : FS) : Nat → String → Option (Except Error SourceMap)
  | 0, _ => none
  | fuel + 1, name =>
    if !(dirSupports root fs name) then
      some (.error (.InvalidSource ("source `" ++ name ++ "` is not supported.")))
    else
      match fs.readDir name with
      | none => none
      | some entries =>
        entries.foldl (dirLoadStep root fs (dirLoadF root fs fuel))
          (some (.ok (SourceMap.new [])))

/-- `DirectorySourceLoader::load`. -/
def dirLoad (root : String) (fs : FS) (name : String) : Option (Except Error SourceMap) :=
  dirLoadF root fs (dirFuel fs) name

/-- The loop of `load_directories`: load each directory in order with the
`DirectorySourceLoader` and merge it into the accumulating map, failing
fast on the first error. -/
def loadDirsGo (root : String) (fs : FS) : List String → SourceMap → Option (Except Error SourceMap)
  | [], map => some (.ok map)
  | d :: ds, map =>
    match dirLoad root fs d with
    | none => none
    | some (.error e) => some (.error e)
    | some (.ok m) => loadDirsGo root fs ds (map.merge m).1

/-- `load_directories(root, directories)`. -/
def load_directories (fs : FS) (root : String) (directories : List String) :
    Option (Except Error SourceMap) :=
  loadDirsGo root fs directories (SourceMap.new [])

/-! ## Observers and concrete filesystem states used by the theorems. -/

/-- The kind of the single source produced by a successful
`FileSourceLoader::load`. -/
def loadedKind (l : FileSourceLoader) (fs : FS) (name : String) : Option SourceKind :=
  match l.load fs name with
  | .ok m => m.sources.head?.map Source.kind
  | .error _ => none

/-- Termination measure for the directory recursion: the number of
directories of the filesystem whose path is strictly longer than `name`. -/
def mBound (fs : FS) (name : String) : Nat :=
  (fs.dirs.filter (fun p => decide (name.length < p.1.length))).length

/-- The repository's own test fixture: root `fixture/` with
`src/main.ara`, `vendor/foo/write_line.d.ara`, `vendor/bar/bar.d.ara`. -/
def fixtureFS : FS :=
  { files := [
      ("fixture/src/main.ara", "function main(): void"),
      ("fixture/vendor/foo/write_line.d.ara", "function write_line(): void"),
      ("fixture/vendor/bar/bar.d.ara", "function bar(): void")],
    dirs := [
      ("fixture/src", ["fixture/src/main.ara"]),
      ("fixture/vendor/foo", ["fixture/vendor/foo/write_line.d.ara"]),
      ("fixture/vendor/bar", ["fixture/vendor/bar/bar.d.ara"])] }

/-- What the code actually produces on the fixture: each source carries the
relative path in `root` and the file content in `origin`. -/
def fixtureLoadedMap : SourceMap :=
  SourceMap.new [
    { kind := .Script, root := some "src/main.ara",
      origin := some "function main(): void", content := none },
    { kind := .Definition, root := some "vendor/foo/write_line.d.ara",
      origin := some "function write_line(): void", content := none },
    { kind := .Definition, root := some "vendor/bar/bar.d.ara",
      origin := some "function bar(): void", content := none }]

def fsEmpty : FS := { files := [], dirs := [] }

/-- A filesystem with one file `/r/o` whose content is `filetext`. -/
def fsC6 : FS := { files := [("/r/o", "filetext")], dirs := [] }

/-- A located source for `/r/o` that already holds a cached content. -/
def srcC6 : Source :=
  { kind := .Script, root := some "/r", origin := some "o", content := some "cached" }

/-- A source with a root but no origin (constructible through the public
mutable fields of `Source`). -/
def srcC8 : Source :=
  { kind := .Script, root := some "/r", origin := none, content := none }

/-- A filesystem with the single file `odd.ara`. -/
def fsOdd : FS := { files := [("odd.ara", "function odd(): void")], dirs := [] }

/-- A two-element collection used to witness `SourceMap::get` bounds. -/
def msC4 : SourceMap :=
  SourceMap.new [Source.inline .Script "a", Source.inline .Script "b"]

/-! # Theorems -/

/-- C1: the claim says a supported file loads to a one-element collection
whose source has `origin` = path relative to the root, `root` = the
loader's root and `content` unset.  The code instead calls
`Source::new(kind, root, origin)` with the relative path in root position
and the file's content in origin position, so on the failing input
`fixture/src/main.ara` the produced source has `origin` = the file's text
and `root` = the relative path — contradicting the claim and the
repository's own `test_directory`. -/
theorem c1_load_stores_content_as_origin :
    (FileSourceLoader.mk "fixture/").load fixtureFS "fixture/src/main.ara" =
      .ok (SourceMap.new
        [{ kind := .Script, root := some "src/main.ara",
           origin := some "function main(): void", content := none }])
    ∧ (some "function main(): void" : Option String) ≠ some "src/main.ara"
    ∧ (some "src/main.ara" : Option String) ≠ some "fixture/" :=
  ⟨by decide, by decide, by decide⟩

/-- C2: on the fixture filesystem the top-level load produces 3 sources,
but every `named` lookup by relative path fails with `SourceNotFound`
because the loader stored each file's content in `origin` (the claim and
the repository's own `test_directory` expect the lookups to succeed).
With the directories given relative to the root, as the claim literally
states, the call fails outright with `InvalidSource`. -/
theorem c2_fixture_named_lookup_fails :
    load_directories fixtureFS "fixture/"
      ["fixture/src", "fixture/vendor/foo", "fixture/vendor/bar"] = some (.ok fixtureLoadedMap)
    ∧ fixtureLoadedMap.sources.length = 3
    ∧ fixtureLoadedMap.named "src/main.ara" = .error (.SourceNotFound "src/main.ara")
    ∧ fixtureLoadedMap.named "vendor/foo/write_line.d.ara" =
        .error (.SourceNotFound "vendor/foo/write_line.d.ara")
    ∧ fixtureLoadedMap.named "vendor/bar/bar.d.ara" =
        .error (.SourceNotFound "vendor/bar/bar.d.ara")
    ∧ load_directories fixtureFS "fixture/" ["src", "vendor/foo", "vendor/bar"] =
        some (.error (.InvalidSource "source `src` is not supported.")) :=
  ⟨by decide, by decide, by decide, by decide, by decide, by decide⟩

/-- C5: merging appends the other collection's sources to the receiver in
order and empties the donor, after which every `get` and every `named` on
the donor fails with `SourceNotFound`. -/
theorem c5_merge_appends_and_empties (m other : SourceMap) :
    (m.merge other).1.sources = m.sources ++ other.sources
    ∧ (m.merge other).2.sources = []
    ∧ (∀ i : Nat, (m.merge other).2.get i = .error (.SourceNotFound (toString i)))
    ∧ (∀ name : String, (m.merge other).2.named name = .error (.SourceNotFound name)) := by
  refine ⟨rfl, rfl, ?_, fun name => rfl⟩
  intro i
  show SourceMap.get (SourceMap.mk []) i = _
  unfold SourceMap.get
  have hnil : ∀ k : Nat, (([] : List Source).get? k) = none := fun k => by cases k <;> rfl
  rw [hnil]

/-- C7: the claim says `dispose_content` on an inline source is a no-op or
disallowed, so content stays present forever.  In the code
`dispose_content` clears the content of an inline source too, after which
`content()` panics. -/
theorem c7_counterexample :
    (Source.dispose_content (Source.inline .Script "function main(): void")).content = none
    ∧ (none : Option String) ≠ some "function main(): void" :=
  ⟨rfl, by decide⟩

/-- C7 (amended): an inline source carries its construction-time content,
and `content()` returns it with no filesystem read — until
`dispose_content` is called, which clears the content of an inline source
as well (it is not a no-op), after which `content()` panics. -/
theorem c7_inline_content_until_disposed (k : SourceKind) (c : String) (fs : FS) :
    (Source.inline k c).content = some c
    ∧ Source.contentC fs (Source.inline k c) = some (.ok c, Source.inline k c, 0)
    ∧ (Source.dispose_content (Source.inline k c)).content = none
    ∧ Source.contentC fs (Source.dispose_content (Source.inline k c)) = none :=
  ⟨rfl, rfl, rfl, rfl⟩

/-- C8: the claim says `source_path()` returns `None` without panicking
whenever `root` or `origin` is absent.  On a source with a root but no
origin (reachable through the public mutable fields) the code unwraps the
absent origin and panics (modelled by the outer `none`) instead of
returning `None` (which would be `some none`). -/
theorem c8_counterexample :
    srcC8.origin = none
    ∧ Source.source_path srcC8 = none
    ∧ (none : Option (Option String)) ≠ some none :=
  ⟨rfl, rfl, by decide⟩

/-- C8 (amended): `source_path()` returns the joined path `root/origin`
when both are present, returns `None` when `root` is absent, and panics
when `root` is present but `origin` is absent. -/
theorem c8_source_path_amended (s : Source) :
    (∀ r o, s.root = some r → s.origin = some o →
      s.source_path = some (some (pathJoin r o)))
    ∧ (s.root = none → s.source_path = some none)
    ∧ (∀ r, s.root = some r → s.origin = none → s.source_path = none) := by
  obtain ⟨k, rt, og, ct⟩ := s
  refine ⟨fun r o hr ho => ?_, fun hr => ?_, fun r hr ho => ?_⟩
  · subst hr; subst ho; rfl
  · subst hr; rfl
  · subst hr; subst ho; rfl

/-- C8 witness: the amended characterization evaluated on a located and on
an inline source. -/
theorem c8_witness :
    Source.source_path (Source.new .Script "/r" "o") = some (some "/r/o")
    ∧ Source.source_path (Source.inline .Script "text") = some none :=
  ⟨((c8_source_path_amended (Source.new .Script "/r" "o")).1 "/r" "o" rfl rfl).trans
      (by decide),
    (c8_source_path_amended (Source.inline .Script "text")).2.1 rfl⟩

/-- C4: `get(i)` is 1-based and unclamped: indices `1..=n` return the
corresponding source in insertion order, while `get(0)` and `get(n+1)`
fail with `SourceNotFound` carrying the stringified index.  (`0 - 1` on a
`usize` wraps to `2 ^ 64 - 1` in a release build, which is out of range
for every collection representable in memory.) -/
theorem c4_get_one_based_no_clamping (m : SourceMap) (h : m.sources.length + 1 < 2 ^ 64) :
    (∀ i, 1 ≤ i → i ≤ m.sources.length →
      ∃ s, m.sources.get? (i - 1) = some s ∧ m.get i = .ok s)
    ∧ m.get 0 = .error (.SourceNotFound "0")
    ∧ m.get (m.sources.length + 1) =
        .error (.SourceNotFound (toString (m.sources.length + 1))) := by
  have h64 : (2 : Nat) ^ 64 = 18446744073709551616 := by norm_num
  rw [h64] at h
  refine ⟨?_, ?_, ?_⟩
  · intro i h1 h2
    have hi : usizeWrapSub1 i = i - 1 := by unfold usizeWrapSub1; rw [h64]; omega
    have hlt : i - 1 < m.sources.length := by omega
    obtain ⟨s, hs⟩ : ∃ s, m.sources.get? (i - 1) = some s := ⟨_, List.get?_eq_get hlt⟩
    refine ⟨s, hs, ?_⟩
    unfold SourceMap.get
    rw [hi, hs]
  · have h0 : usizeWrapSub1 0 = 2 ^ 64 - 1 := by unfold usizeWrapSub1; rw [h64]
    have hn : m.sources.get? (2 ^ 64 - 1) = none := List.get?_eq_none.mpr (by omega)
    unfold SourceMap.get
    rw [h0, hn]
    rfl
  · have hl : usizeWrapSub1 (m.sources.length + 1) = m.sources.length := by
      unfold usizeWrapSub1; rw [h64]; omega
    have hn : m.sources.get? m.sources.length = none := List.get?_eq_none.mpr (by omega)
    unfold SourceMap.get
    rw [hl, hn]

/-- C4 witness: the bounds behaviour on a concrete two-element collection. -/
theorem c4_witness :
    msC4.sources.length + 1 < 2 ^ 64
    ∧ (∃ s, msC4.sources.get? 0 = some s ∧ msC4.get 1 = .ok s)
    ∧ msC4.get 0 = .error (.SourceNotFound "0")
    ∧ msC4.get 3 = .error (.SourceNotFound "3") := by
  have h := c4_get_one_based_no_clamping msC4 (by decide)
  exact ⟨by decide, h.1 1 (by decide) (by decide), h.2.1, h.2.2⟩

/-- C6: the claim quantifies over every located source whose file exists,
but a located source that already holds a cached content (a state reached
by any earlier `content()` call) serves both calls from the cache: zero
filesystem reads, not exactly one. -/
theorem c6_counterexample :
    fsC6.readFile (pathJoin "/r" "o") = some "filetext"
    ∧ Source.contentC fsC6 srcC6 = some (.ok "cached", srcC6, 0)
    ∧ (0 : Nat) ≠ 1 :=
  ⟨by decide, by decide, by decide⟩

/-- C6 (amended): for a located source with no cached content whose file
exists, the first `content()` performs exactly one read and caches, the
second is served from the cache with zero reads and identical content, and
after `dispose_content()` the next `content()` performs exactly one more
read and returns the file's content again. -/
theorem c6_content_lazy_cached (fs : FS) (s : Source) (r o text : String)
    (hr : s.root = some r) (ho : s.origin = some o) (hc : s.content = none)
    (hf : fs.readFile (pathJoin r o) = some text) :
    Source.contentC fs s = some (.ok text, { s with content := some text }, 1)
    ∧ Source.contentC fs { s with content := some text } =
        some (.ok text, { s with content := some text }, 0)
    ∧ Source.dispose_content { s with content := some text } = s
    ∧ Source.contentC fs (Source.dispose_content { s with content := some text }) =
        some (.ok text, { s with content := some text }, 1) := by
  obtain ⟨k, rt, og, ct⟩ := s
  dsimp only at hr ho hc ⊢
  subst hr; subst ho; subst hc
  refine ⟨?_, rfl, rfl, ?_⟩
  · simp [Source.contentC, hf]
  · simp [Source.contentC, Source.dispose_content, hf]

/-- C6 witness: the amended behaviour on a freshly located source over a
one-file filesystem. -/
theorem c6_witness :
    (Source.new .Script "/r" "o").root = some "/r"
    ∧ (Source.new .Script "/r" "o").origin = some "o"
    ∧ (Source.new .Script "/r" "o").content = none
    ∧ fsC6.readFile (pathJoin "/r" "o") = some "filetext"
    ∧ (Source.contentC fsC6 (Source.new .Script "/r" "o") =
        some (.ok "filetext",
          { Source.new .Script "/r" "o" with content := some "filetext" }, 1)
      ∧ Source.contentC fsC6 { Source.new .Script "/r" "o" with content := some "filetext" } =
        some (.ok "filetext",
          { Source.new .Script "/r" "o" with content := some "filetext" }, 0)
      ∧ Source.dispose_content { Source.new .Script "/r" "o" with content := some "filetext" } =
          Source.new .Script "/r" "o"
      ∧ Source.contentC fsC6
          (Source.dispose_content
            { Source.new .Script "/r" "o" with content := some "filetext" }) =
        some (.ok "filetext",
          { Source.new .Script "/r" "o" with content := some "filetext" }, 1)) :=
  ⟨rfl, rfl, rfl, by decide,
    c6_content_lazy_cached fsC6 (Source.new .Script "/r" "o") "/r" "o" "filetext"
      rfl rfl rfl (by decide)⟩

/-- After a successful `content()` the updated source caches the returned
text. -/
theorem contentC_ok_content (fs : FS) (s : Source) (text : String) (u : Source) (n : Nat)
    (h : Source.contentC fs s = some (.ok text, u, n)) : u.content = some text := by
  obtain ⟨k, rt, og, ct⟩ := s
  cases ct with
  | some c =>
    unfold Source.contentC at h
    dsimp only at h
    simp only [Option.some.injEq, Prod.mk.injEq, Except.ok.injEq] at h
    obtain ⟨h1, h2, _⟩ := h
    rw [← h2]
    dsimp only
    rw [h1]
  | none =>
    cases rt with
    | none =>
      unfold Source.contentC at h
      exact Option.noConfusion h
    | some r =>
      cases og with
      | none =>
        unfold Source.contentC at h
        exact Option.noConfusion h
      | some o =>
        unfold Source.contentC at h
        dsimp only at h
        cases hrf : fs.readFile (pathJoin r o) with
        | none =>
          rw [hrf] at h
          simp only [Option.some.injEq, Prod.mk.injEq] at h
          exact Except.noConfusion h.1
        | some t =>
          rw [hrf] at h
          simp only [Option.some.injEq, Prod.mk.injEq, Except.ok.injEq] at h
          obtain ⟨h1, h2, _⟩ := h
          rw [← h2]
          dsimp only
          rw [h1]

/-- `content()` on a source with a cached text returns it with no read. -/
theorem contentC_of_cached (fs : FS) (s : Source) (text : String)
    (h : s.content = some text) :
    Source.contentC fs s = some (.ok text, s, 0) := by
  unfold Source.contentC
  rw [h]

/-- A successful `hash()` equals the `FxHasher` digest of the content
cached on the updated source. -/
theorem hashC_ok_spec (fs : FS) (s : Source) (h : Nat) (s' : Source)
    (hcall : Source.hashC fs s = some (.ok (h, s'))) :
    ∃ text, s'.content = some text ∧ h = fxhash text := by
  unfold Source.hashC at hcall
  split at hcall
  · simp at hcall
  · simp at hcall
  · rename_i text u n heq
    simp only [Option.some.injEq, Except.ok.injEq, Prod.mk.injEq] at hcall
    obtain ⟨h1, h2⟩ := hcall
    refine ⟨text, ?_, h1.symm⟩
    rw [← h2]
    exact contentC_ok_content fs s text u n heq

/-- C9: the claim says hash values differ exactly when contents differ.
The `FxHasher` is not injective: the empty content and the one-byte
content `"\x00"` differ but both hash to `0`. -/
theorem c9_counterexample :
    Source.hashC fsEmpty (Source.inline .Script "") =
      some (.ok (0, Source.inline .Script ""))
    ∧ Source.hashC fsEmpty (Source.inline .Script "\x00") =
        some (.ok (0, Source.inline .Script "\x00"))
    ∧ (Source.inline .Script "").content ≠ (Source.inline .Script "\x00").content :=
  ⟨by decide, by decide, by decide⟩

/-- C9 (amended): `hash()` is stable — a second call on the source returned
by a successful call yields the same value — and the value is a function of
the content alone: any two successful calls whose updated sources carry
equal content yield equal values.  (Distinct contents may still collide,
as the counterexample shows.) -/
theorem c9_hash_deterministic_content_function (fs : FS) (s : Source) (h : Nat) (s' : Source)
    (hcall : Source.hashC fs s = some (.ok (h, s'))) :
    Source.hashC fs s' = some (.ok (h, s'))
    ∧ ∀ (fs₂ : FS) (s₂ : Source) (h₂ : Nat) (s₂' : Source),
        Source.hashC fs₂ s₂ = some (.ok (h₂, s₂')) → s'.content = s₂'.content → h = h₂ := by
  obtain ⟨text, hcont, hh⟩ := hashC_ok_spec fs s h s' hcall
  constructor
  · have hcc := contentC_of_cached fs s' text hcont
    unfold Source.hashC
    rw [hcc, hh]
  · intro fs₂ s₂ h₂ s₂' hcall₂ hceq
    obtain ⟨text₂, hcont₂, hh₂⟩ := hashC_ok_spec fs₂ s₂ h₂ s₂' hcall₂
    rw [hcont, hcont₂] at hceq
    injection hceq with hteq
    rw [hh, hh₂, hteq]

/-- C9 witness: the amended determinism at a concrete inline source. -/
theorem c9_witness :
    Source.hashC fsEmpty (Source.inline .Script "a") =
      some (.ok (fxhash "a", Source.inline .Script "a"))
    ∧ Source.hashC fsEmpty (Source.inline .Script "a") =
        some (.ok (fxhash "a", Source.inline .Script "a")) :=
  ⟨rfl,
    (c9_hash_deterministic_content_function fsEmpty (Source.inline .Script "a")
      (fxhash "a") (Source.inline .Script "a") rfl).1⟩

/-- A name supported by the file loader names an existing regular file. -/
theorem fileSupports_isFile (l : FileSourceLoader) (fs : FS) (name : String)
    (h : l.supports fs name = true) : fs.isFile name = true := by
  unfold FileSourceLoader.supports at h
  cases hst : rustStartsWith name l.root
  · rw [hst] at h; simp at h
  · rw [hst] at h
    cases hf : fs.isFile name
    · rw [hf] at h; simp at h
    · rfl

/-- An existing regular file can be read. -/
theorem isFile_readFile (fs : FS) (name : String) (h : fs.isFile name = true) :
    ∃ c, fs.readFile name = some c := by
  unfold FS.isFile at h
  unfold FS.readFile
  cases hfind : fs.files.find? (fun q => q.1 == name)
  · rw [hfind] at h; simp at h
  · exact ⟨_, rfl⟩

/-- On a supported name, `FileSourceLoader::load` succeeds and produces the
single source built by the (argument-swapped) `Source::new` call, with the
kind chosen by the `d.ara` suffix test. -/
theorem fileLoad_of_supports (l : FileSourceLoader) (fs : FS) (name : String)
    (h : l.supports fs name = true) :
    ∃ c, fs.readFile name = some c ∧
      l.load fs name = .ok (SourceMap.new [Source.new
        (if rustEndsWith name ARA_DEFINTION_EXTENSION then SourceKind.Definition
          else SourceKind.Script)
        ((stripPrefixRust name l.root).getD "") c]) := by
  obtain ⟨c, hc⟩ := isFile_readFile fs name (fileSupports_isFile l fs name h)
  refine ⟨c, hc, ?_⟩
  unfold FileSourceLoader.load
  rw [h, hc]
  rfl

/-- C10: for every name the file loader accepts, the produced kind is
`Definition` exactly when the name ends with the five characters `d.ara`
(the suffix test `name.ends_with("d.ara")` requires no dot before the
suffix). -/
theorem c10_definition_suffix_no_dot_required (l : FileSourceLoader) (fs : FS) (name : String)
    (h : l.supports fs name = true) :
    loadedKind l fs name =
      some (if rustEndsWith name ARA_DEFINTION_EXTENSION then .Definition else .Script)
    ∧ (loadedKind l fs name = some .Definition ↔
        rustEndsWith name ARA_DEFINTION_EXTENSION = true) := by
  obtain ⟨c, hc, hload⟩ := fileLoad_of_supports l fs name h
  have hk : loadedKind l fs name =
      some (if rustEndsWith name ARA_DEFINTION_EXTENSION then SourceKind.Definition
        else SourceKind.Script) := by
    unfold loadedKind
    rw [hload]
    rfl
  refine ⟨hk, ?_⟩
  rw [hk]
  cases he : rustEndsWith name ARA_DEFINTION_EXTENSION <;> simp

/-- Pointwise-equal predicates give equal `List.all`. -/
theorem all_congr_list {α : Type} (f g : α → Bool) :
    ∀ l : List α, (∀ a ∈ l, f a = g a) → l.all f = l.all g := by
  intro l
  induction l with
  | nil => intro _; rfl
  | cons x xs ih =>
    intro h
    simp only [List.all_cons]
    rw [h x (List.mem_cons_self x xs), ih (fun a ha => h a (List.mem_cons_of_mem x ha))]

/-- A filter by a pointwise-stronger predicate is strictly shorter when
some element separates the two predicates. -/
theorem length_filter_lt_of_witness {α : Type} (p q : α → Bool) (l : List α)
    (hpq : ∀ a, p a = true → q a = true) (a : α) (ha : a ∈ l)
    (hqa : q a = true) (hpa : p a = false) :
    (l.filter p).length < (l.filter q).length := by
  have hsub : List.Sublist (l.filter p) (l.filter q) := List.monotone_filter_right l hpq
  rcases Nat.lt_or_ge (l.filter p).length (l.filter q).length with hlt | hge
  · exact hlt
  · exfalso
    have heq : l.filter p = l.filter q :=
      hsub.eq_of_length (Nat.le_antisymm hsub.length_le hge)
    have hmem : a ∈ l.filter p := by rw [heq]; exact List.mem_filter.mpr ⟨ha, hqa⟩
    have hp := (List.mem_filter.mp hmem).2
    rw [hpa] at hp
    exact Bool.noConfusion hp

/-- A filter misses at least one element it rejects. -/
theorem length_filter_lt_length_of_mem {α : Type} (p : α → Bool) (l : List α)
    (a : α) (ha : a ∈ l) (hpa : p a = false) :
    (l.filter p).length < l.length := by
  have hsub : List.Sublist (l.filter p) l := List.filter_sublist l
  rcases Nat.lt_or_ge (l.filter p).length l.length with hlt | hge
  · exact hlt
  · exfalso
    have heq : l.filter p = l := hsub.eq_of_length (Nat.le_antisymm hsub.length_le hge)
    have hmem : a ∈ l.filter p := by rw [heq]; exact ha
    have hp := (List.mem_filter.mp hmem).2
    rw [hpa] at hp
    exact Bool.noConfusion hp

/-- `readDir` returning entries means the directory map holds that pair. -/
theorem readDir_mem (fs : FS) (name : String) (entries : List String)
    (h : fs.readDir name = some entries) : (name, entries) ∈ fs.dirs := by
  unfold FS.readDir at h
  cases hfind : fs.dirs.find? (fun q => q.1 == name) with
  | none => rw [hfind] at h; exact Option.noConfusion h
  | some q =>
    rw [hfind] at h
    have hfs := List.find?_some hfind
    have hq1 : q.1 = name := eq_of_beq (by simpa using hfs)
    have hmem := List.mem_of_find?_eq_some hfind
    have hq2 : q.2 = entries := by injection h
    have hpair : (name, entries) = q := by rw [← hq1, ← hq2]
    rw [hpair]
    exact hmem

/-- An existing directory is one of the directory-map keys. -/
theorem isDir_exists_mem (fs : FS) (e : String) (h : fs.isDir e = true) :
    ∃ q ∈ fs.dirs, q.1 = e := by
  unfold FS.isDir FS.readDir at h
  cases hfind : fs.dirs.find? (fun q => q.1 == e) with
  | none => rw [hfind] at h; simp at h
  | some q =>
    have hfs := List.find?_some hfind
    exact ⟨q, List.mem_of_find?_eq_some hfind, eq_of_beq (by simpa using hfs)⟩

theorem mBound_le (fs : FS) (name : String) : mBound fs name ≤ fs.dirs.length :=
  (List.filter_sublist fs.dirs).length_le

/-- Walking into a subdirectory strictly decreases the measure. -/
theorem mBound_entry_lt (fs : FS) (hwf : fs.WF) (name e : String) (entries : List String)
    (hrd : fs.readDir name = some entries) (he : e ∈ entries) (hd : fs.isDir e = true) :
    mBound fs e < mBound fs name := by
  have hmem := readDir_mem fs name entries hrd
  have hlen : name.length < e.length := hwf (name, entries) hmem e he
  obtain ⟨q, hqmem, hqe⟩ := isDir_exists_mem fs e hd
  unfold mBound
  refine length_filter_lt_of_witness _ _ _ ?_ q hqmem ?_ ?_
  · intro a hpa
    exact decide_eq_true (Nat.lt_trans hlen (of_decide_eq_true hpa))
  · exact decide_eq_true (by rw [hqe]; exact hlen)
  · simp only [hqe]
    exact decide_eq_false (Nat.lt_irrefl e.length)

/-- A directory's measure is strictly below the number of directories. -/
theorem mBound_lt_dirs_length (fs : FS) (e : String) (hd : fs.isDir e = true) :
    mBound fs e < fs.dirs.length := by
  obtain ⟨q, hqmem, hqe⟩ := isDir_exists_mem fs e hd
  unfold mBound
  refine length_filter_lt_length_of_mem _ _ q hqmem ?_
  simp only [hqe]
  exact decide_eq_false (Nat.lt_irrefl e.length)

/-- The fuelled `supports` stabilizes once the fuel exceeds the measure. -/
theorem dirSupportsF_stable (root : String) (fs : FS) (hwf : fs.WF) :
    ∀ f₁ f₂ name, mBound fs name < f₁ → mBound fs name < f₂ →
      dirSupportsF root fs f₁ name = dirSupportsF root fs f₂ name := by
  intro f₁
  induction f₁ with
  | zero => intro f₂ name h1 _; exact absurd h1 (Nat.not_lt_zero _)
  | succ a ih =>
    intro f₂ name h1 h2
    cases f₂ with
    | zero => exact absurd h2 (Nat.not_lt_zero _)
    | succ b =>
      unfold dirSupportsF
      cases hst : rustStartsWith name root
      · rfl
      · cases hrd : fs.readDir name with
        | none => rfl
        | some entries =>
          have hpt : ∀ e ∈ entries,
              (if fs.isDir e then dirSupportsF root fs a e else true) =
              (if fs.isDir e then dirSupportsF root fs b e else true) := by
            intro e he
            cases hd : fs.isDir e
            · rfl
            · have hme : mBound fs e < mBound fs name :=
                mBound_entry_lt fs hwf name e entries hrd he hd
              simpa using ih b e (Nat.lt_of_lt_of_le hme (Nat.lt_succ_iff.mp h1))
                (Nat.lt_of_lt_of_le hme (Nat.lt_succ_iff.mp h2))
          exact all_congr_list _ _ entries hpt

/-- What `DirectorySourceLoader::supports` guarantees: the prefix check
passed, the directory enumerates, and every subdirectory entry is itself
supported. -/
theorem dirSupports_spec (root : String) (fs : FS) (hwf : fs.WF) (name : String)
    (h : dirSupports root fs name = true) :
    rustStartsWith name root = true ∧
    ∃ entries, fs.readDir name = some entries ∧
      ∀ e ∈ entries, fs.isDir e = true → dirSupports root fs e = true := by
  unfold dirSupports dirFuel at h
  rw [dirSupportsF] at h
  cases hst : rustStartsWith name root
  · rw [hst] at h; simp at h
  · rw [hst] at h
    cases hrd : fs.readDir name with
    | none => rw [hrd] at h; simp at h
    | some entries =>
      rw [hrd] at h
      simp at h
      refine ⟨rfl, entries, rfl, ?_⟩
      intro e he hd
      have hall : dirSupportsF root fs fs.dirs.length e = true := by
        rcases h e he with hfalse | htrue
        · rw [hd] at hfalse; exact Bool.noConfusion hfalse
        · exact htrue
      have hm : mBound fs e < fs.dirs.length := mBound_lt_dirs_length fs e hd
      unfold dirSupports dirFuel
      rw [dirSupportsF_stable root fs hwf (fs.dirs.length + 1) fs.dirs.length e
        (Nat.lt_succ_of_lt hm) hm]
      exact hall

/-- On a supported name, `FileSourceLoader::load` succeeds. -/
theorem fileLoad_ok (l : FileSourceLoader) (fs : FS) (name : String)
    (h : l.supports fs name = true) : ∃ m, l.load fs name = .ok m := by
  obtain ⟨c, _, hload⟩ := fileLoad_of_supports l fs name h
  exact ⟨_, hload⟩

/-- If every subdirectory entry recursively loads successfully, the entry
loop of `DirectorySourceLoader::load` never fails. -/
theorem foldl_dirLoadStep_ok (root : String) (fs : FS)
    (rec : String → Option (Except Error SourceMap)) :
    ∀ (es : List String) (acc : SourceMap),
      (∀ e ∈ es, fs.isDir e = true → ∃ m, rec e = some (.ok m)) →
      ∃ m, es.foldl (dirLoadStep root fs rec) (some (.ok acc)) = some (.ok m) := by
  intro es
  induction es with
  | nil => intro acc _; exact ⟨acc, rfl⟩
  | cons e es ih =>
    intro acc h
    have hrest : ∀ x ∈ es, fs.isDir x = true → ∃ m, rec x = some (.ok m) :=
      fun x hx => h x (List.mem_cons_of_mem e hx)
    rw [List.foldl_cons]
    cases hd : fs.isDir e
    · cases hsup : (FileSourceLoader.mk root).supports fs e
      · have hstep : dirLoadStep root fs rec (some (.ok acc)) e = some (.ok acc) := by
          unfold dirLoadStep
          simp [hd, hsup]
        rw [hstep]
        exact ih acc hrest
      · obtain ⟨m0, hm0⟩ := fileLoad_ok (FileSourceLoader.mk root) fs e hsup
        have hstep : dirLoadStep root fs rec (some (.ok acc)) e =
            some (.ok (acc.merge m0).1) := by
          unfold dirLoadStep
          simp [hd, hsup, hm0]
        rw [hstep]
        exact ih _ hrest
    · obtain ⟨m0, hm0⟩ := h e (List.mem_cons_self e es) hd
      have hstep : dirLoadStep root fs rec (some (.ok acc)) e =
          some (.ok (acc.merge m0).1) := by
        unfold dirLoadStep
        simp [hd, hm0]
      rw [hstep]
      exact ih _ hrest

/-- With fuel above the measure, a supported directory loads successfully. -/
theorem dirLoadF_ok (root : String) (fs : FS) (hwf : fs.WF) :
    ∀ (fuel : Nat) (name : String), mBound fs name < fuel →
      dirSupports root fs name = true →
      ∃ m, dirLoadF root fs fuel name = some (.ok m) := by
  intro fuel
  induction fuel with
  | zero => intro name h _; exact absurd h (Nat.not_lt_zero _)
  | succ f ih =>
    intro name hm hsup
    obtain ⟨hst, entries, hrd, hent⟩ := dirSupports_spec root fs hwf name hsup
    have hcond : ∀ e ∈ entries, fs.isDir e = true →
        ∃ m, dirLoadF root fs f e = some (.ok m) := by
      intro e he hd
      have hme : mBound fs e < mBound fs name :=
        mBound_entry_lt fs hwf name e entries hrd he hd
      exact ih e (Nat.lt_of_lt_of_le hme (Nat.lt_succ_iff.mp hm)) (hent e he hd)
    obtain ⟨m, hfold⟩ :=
      foldl_dirLoadStep_ok root fs (dirLoadF root fs f) entries (SourceMap.new []) hcond
    refine ⟨m, ?_⟩
    unfold dirLoadF
    rw [hsup, hrd]
    simpa using hfold

/-- C3: evaluated against one fixed well-formed filesystem state, each
loader rejects with `InvalidSource` exactly the names its `supports`
refuses: on a supported name `load` never yields `InvalidSource` (the
directory loader even succeeds outright), and on an unsupported name
`load` yields exactly the `InvalidSource` error. -/
theorem c3_supports_matches_invalid_source (fs : FS) (hwf : fs.WF) (root name : String) :
    ((FileSourceLoader.mk root).supports fs name = true →
      ∀ msg, (FileSourceLoader.mk root).load fs name ≠ .error (.InvalidSource msg))
    ∧ ((FileSourceLoader.mk root).supports fs name = false →
      (FileSourceLoader.mk root).load fs name =
        .error (.InvalidSource ("source `" ++ name ++ "` is not supported.")))
    ∧ (dirSupports root fs name = true →
      ∃ m, dirLoad root fs name = some (.ok m))
    ∧ (dirSupports root fs name = false →
      dirLoad root fs name =
        some (.error (.InvalidSource ("source `" ++ name ++ "` is not supported.")))) := by
  refine ⟨?_, ?_, ?_, ?_⟩
  · intro hsup msg
    obtain ⟨c, hc, hload⟩ := fileLoad_of_supports (FileSourceLoader.mk root) fs name hsup
    rw [hload]
    exact fun hh => Except.noConfusion hh
  · intro hsup
    unfold FileSourceLoader.load
    rw [hsup]
    rfl
  · intro hsup
    exact dirLoadF_ok root fs hwf (dirFuel fs) name
      (Nat.lt_succ_of_le (mBound_le fs name)) hsup
  · intro hsup
    unfold dirLoad dirFuel
    rw [dirLoadF, hsup]
    rfl

/-- C3 witness: on the fixture filesystem, a supported directory loads
successfully and an unsupported file name fails with `InvalidSource`. -/
theorem c3_witness :
    fixtureFS.WF
    ∧ (∃ m, dirLoad "fixture/" fixtureFS "fixture/src" = some (.ok m))
    ∧ (FileSourceLoader.mk "fixture/").load fixtureFS "fixture/vendor" =
        .error (.InvalidSource "source `fixture/vendor` is not supported.") :=
  ⟨by decide,
    (c3_supports_matches_invalid_source fixtureFS (by decide) "fixture/" "fixture/src").2.2.1
      (by decide),
    (c3_supports_matches_invalid_source fixtureFS (by decide) "fixture/" "fixture/vendor").2.1
      (by decide)⟩

/-- C10 witness: `odd.ara`, whose stem merely ends in the letter `d`, is
accepted and classified `Definition`. -/
theorem c10_witness :
    (FileSourceLoader.mk "").supports fsOdd "odd.ara" = true
    ∧ loadedKind (FileSourceLoader.mk "") fsOdd "odd.ara" = some .Definition
    ∧ rustEndsWith "odd.ara" ARA_DEFINTION_EXTENSION = true :=
  ⟨by decide,
    (c10_definition_suffix_no_dot_required (FileSourceLoader.mk "") fsOdd "odd.ara"
      (by decide)).2.mpr (by decide),
    by decide⟩

end AraSource
